import Mathlib

/-!
Verification development for the EPANET-GoldSim bridge mapping generator
(`scripts/generate_mapping.py`).  The Python source is shallowly embedded:
text is `List Char`, the `.inp` parser (`EpanetInpParser`) becomes pure
functions over character lists, and the mapping builder (`MappingGenerator`)
becomes explicit state passing over a `GenState` record.  Python's unbounded
`int` is `Int`; a Python call that can raise (`int(...)` inside
`_parse_time_string`) is modelled with `Option`, `none` standing for an
uncaught exception that aborts the run.  File I/O is modelled by passing the
file's contents as an `Option` value (`none` = unreadable file).
-/

set_option autoImplicit false

/-! ### Python string primitives used by the script -/

/-- Whitespace recognized by Python's `str.strip` / `str.split()` and by the
regex class `\s` on the ASCII range: space, tab, newline, carriage return,
vertical tab, form feed. -/
def isPySpace (c : Char) : Bool :=
  c == ' ' || c == '\t' || c == '\n' || c == '\r' ||
  c == Char.ofNat 11 || c == Char.ofNat 12

/-- Python `s.split(sep)` for a one-character separator: splits at every
occurrence and keeps empty pieces, so the result always has
(number of separators + 1) pieces. -/
def splitOnChar (sep : Char) : List Char → List (List Char)
  | [] => [[]]
  | c :: cs =>
    let r := splitOnChar sep cs
    if c = sep then [] :: r else (c :: r.headD []) :: r.tail

/-- Python `s.strip()`: remove leading and trailing whitespace. -/
def pyStrip (s : List Char) : List Char :=
  ((s.dropWhile isPySpace).reverse.dropWhile isPySpace).reverse

/-- Auxiliary accumulator for `pySplitWS`. -/
def splitWSAux : List Char → List Char → List (List Char)
  | [], acc => if acc.isEmpty then [] else [acc.reverse]
  | c :: cs, acc =>
    if isPySpace c then
      if acc.isEmpty then splitWSAux cs []
      else acc.reverse :: splitWSAux cs []
    else splitWSAux cs (c :: acc)

/-- Python `s.split()` with no argument: split on runs of whitespace,
producing no empty tokens. -/
def pySplitWS (s : List Char) : List (List Char) :=
  splitWSAux s []

/-- Lowercase a character list (ASCII case folding, as used by
`re.IGNORECASE` on the script's ASCII section names). -/
def lowerL (s : List Char) : List Char :=
  s.map Char.toLower

/-- Uppercase a character list (Python `str.upper` on the ASCII tokens the
script compares). -/
def pyUpper (s : List Char) : List Char :=
  s.map Char.toUpper

/-- Case-insensitive "needle is a prefix of hay" test. -/
def isPrefixCI (needle hay : List Char) : Bool :=
  decide (lowerL (hay.take needle.length) = lowerL needle)

/-- Position of the first case-insensitive occurrence of `needle`, as
computed by `re.search(re.escape(needle), hay, re.IGNORECASE)`. -/
def findCI (needle : List Char) : List Char → Option Nat
  | [] => if isPrefixCI needle [] then some 0 else none
  | c :: cs =>
    if isPrefixCI needle (c :: cs) then some 0
    else (findCI needle cs).map (· + 1)

/-- Does the text start with the two characters newline-then-open-bracket,
the pattern the script uses to find the start of the next section? -/
def startsWithNlBr : List Char → Bool
  | c1 :: c2 :: _ => c1 == '\n' && c2 == '['
  | _ => false

/-- Position of the first occurrence of newline-then-open-bracket, as
computed by `re.search` of that two-character pattern. -/
def findNlBr : List Char → Option Nat
  | [] => none
  | c :: cs =>
    if startsWithNlBr (c :: cs) then some 0
    else (findNlBr cs).map (· + 1)

/-- Count occurrences of a character in a character list. -/
def countChar (ch : Char) : List Char → Nat
  | [] => 0
  | c :: cs => (if c = ch then 1 else 0) + countChar ch cs

/-- Numeric value of a list of decimal digit characters. -/
def natOfDigits (ds : List Char) : Nat :=
  ds.foldl (fun n c => n * 10 + (c.toNat - 48)) 0

/-- Python `int(s)` on a decimal string: strip whitespace, allow one
optional sign, then require at least one digit; `none` models the
`ValueError` raised otherwise.  (Digit-group underscores and non-ASCII
digits accepted by CPython are not modelled; no input in this development
uses them.) -/
def pyInt (s : List Char) : Option Int :=
  match pyStrip s with
  | [] => none
  | '+' :: ds =>
    if !ds.isEmpty && ds.all Char.isDigit then some (natOfDigits ds : Nat) else none
  | '-' :: ds =>
    if !ds.isEmpty && ds.all Char.isDigit then some (-(natOfDigits ds : Nat) : Int) else none
  | ds =>
    if ds.all Char.isDigit then some (natOfDigits ds : Nat) else none

/-- Character list of a string literal. -/
def strL (s : String) : List Char :=
  s.toList

/-! ### EpanetInpParser: section scanning -/

/-- Body of a section starting at the given suffix of the content: everything
up to (excluding) the next newline-then-open-bracket, or the whole suffix if
there is none.  This is the slice `content[section_start:section_end]`
computed in `_parse_section` and its two specialized variants. -/
def bodySlice (s : List Char) : List Char :=
  match findNlBr s with
  | none => s
  | some j => s.take j

/-- Locate a section by its header (first case-insensitive occurrence
anywhere in the text) and return its body, or `none` when the header is
absent. -/
def sectionBody (content name : List Char) : Option (List Char) :=
  match findCI name content with
  | none => none
  | some i => some (bodySlice (content.drop (i + name.length)))

/-- One line of a section body after comment removal (`line.split(';')[0]`)
and trimming (`.strip()`). -/
def cleanLine (l : List Char) : List Char :=
  pyStrip (l.takeWhile (fun c => c != ';'))

/-- Loop body of `_parse_section`: skip blank lines, otherwise append the
first whitespace-delimited token of the line. -/
def sectionStep (acc : List (List Char)) (line : List Char) : List (List Char) :=
  let c := cleanLine line
  if c = [] then acc
  else
    match pySplitWS c with
    | [] => acc
    | t :: _ => acc ++ [t]

/-- `EpanetInpParser._parse_section`: element IDs (first column) of one
section, in file order; empty when the header is absent. -/
def parse_section (content name : List Char) : List (List Char) :=
  match sectionBody content name with
  | none => []
  | some body => (splitOnChar '\n' body).foldl sectionStep []

/-! ### EpanetInpParser: TIMES and OPTIONS sections -/

/-- `EpanetInpParser._parse_time_string`: split on `:`; two parts are
`H:MM`, three parts are `H:MM:SS`, any other count defaults to 3600.
`none` models the `ValueError` raised by `int()` on a non-integer part. -/
def parse_time_string (t : List Char) : Option Int :=
  match splitOnChar ':' t with
  | [hh, mm] =>
    match pyInt hh, pyInt mm with
    | some h, some m => some (h * 3600 + m * 60)
    | _, _ => none
  | [hh, mm, ss] =>
    match pyInt hh, pyInt mm, pyInt ss with
    | some h, some m, some s => some (h * 3600 + m * 60 + s)
    | _, _, _ => none
  | _ => some 3600

/-- The test `re.match(r'Hydraulic\s+Timestep', line, re.IGNORECASE)`:
the line starts (prefix match) with "Hydraulic", one or more whitespace
characters, then "Timestep", case-insensitively. -/
def matchHydraulicTimestep (l : List Char) : Bool :=
  isPrefixCI (strL "Hydraulic") l &&
    (let rest := l.drop (strL "Hydraulic").length
     !(rest.takeWhile isPySpace).isEmpty &&
       isPrefixCI (strL "Timestep") (rest.dropWhile isPySpace))

/-- Line loop of `_parse_times_section`: the first matching line with at
least three tokens sets the timestep (and breaks); `none` models the
uncaught `ValueError` escaping from `int()`. -/
def parseTimesLines : List (List Char) → Option Int
  | [] => some 3600
  | l :: rest =>
    let c := cleanLine l
    if c = [] then parseTimesLines rest
    else if matchHydraulicTimestep c then
      match pySplitWS c with
      | _ :: _ :: t :: _ => parse_time_string t
      | _ => parseTimesLines rest
    else parseTimesLines rest

/-- `EpanetInpParser._parse_times_section`: hydraulic timestep in seconds
from the TIMES section, default 3600; `none` models an uncaught exception. -/
def parse_times_section (content : List Char) : Option Int :=
  match sectionBody content (strL "[TIMES]") with
  | none => some 3600
  | some body => parseTimesLines (splitOnChar '\n' body)

/-- Line loop of `_parse_quality_section`: the first line that starts
(prefix match, `re.match`) with "Quality" case-insensitively and has at
least two tokens decides the flag (and breaks). -/
def parseQualityLines : List (List Char) → Bool
  | [] => false
  | l :: rest =>
    let c := cleanLine l
    if c = [] then parseQualityLines rest
    else if isPrefixCI (strL "Quality") c then
      match pySplitWS c with
      | _ :: t1 :: _ => decide (pyUpper t1 ≠ strL "NONE")
      | _ => parseQualityLines rest
    else parseQualityLines rest

/-- `EpanetInpParser._parse_quality_section`: whether water quality is
enabled, from the OPTIONS section; absent section leaves it disabled. -/
def parse_quality_section (content : List Char) : Bool :=
  match sectionBody content (strL "[OPTIONS]") with
  | none => false
  | some body => parseQualityLines (splitOnChar '\n' body)

/-! ### EpanetInpParser: the parsed model -/

/-- Result of `EpanetInpParser.parse`: the per-category element ID lists and
the two scalar options. -/
structure ParsedModel where
  junctions : List (List Char)
  reservoirs : List (List Char)
  tanks : List (List Char)
  pipes : List (List Char)
  pumps : List (List Char)
  valves : List (List Char)
  patterns : List (List Char)
  hydraulic_timestep : Int
  quality_enabled : Bool
deriving DecidableEq

/-- `EpanetInpParser.parse` on file contents that were successfully read:
parses the seven element sections, the TIMES section and the OPTIONS
section.  Only the TIMES section can raise (uncaught `ValueError` from
`int()`), modelled by `none`; the section order of the original code does
not matter because the sections are independent. -/
def parseContent (content : List Char) : Option ParsedModel :=
  match parse_times_section content with
  | none => none
  | some t =>
    some
      { junctions := parse_section content (strL "[JUNCTIONS]")
        reservoirs := parse_section content (strL "[RESERVOIRS]")
        tanks := parse_section content (strL "[TANKS]")
        pipes := parse_section content (strL "[PIPES]")
        pumps := parse_section content (strL "[PUMPS]")
        valves := parse_section content (strL "[VALVES]")
        patterns := parse_section content (strL "[PATTERNS]")
        hydraulic_timestep := t
        quality_enabled := parse_quality_section content }

/-- `EpanetInpParser.get_all_nodes`: junctions + reservoirs + tanks. -/
def get_all_nodes (p : ParsedModel) : List (List Char) :=
  p.junctions ++ p.reservoirs ++ p.tanks

/-- `EpanetInpParser.get_all_links`: pipes + pumps + valves. -/
def get_all_links (p : ParsedModel) : List (List Char) :=
  p.pipes ++ p.pumps ++ p.valves

/-! ### MD5 (the `hashlib.md5` library call in `_calculate_file_hash`) -/

/-- 2^32, the word modulus of MD5. -/
def M32 : Nat := 4294967296

/-- Addition modulo 2^32. -/
def add32 (a b : Nat) : Nat := (a + b) % M32

/-- Bitwise complement on 32-bit words. -/
def not32 (x : Nat) : Nat := (M32 - 1) - (x % M32)

/-- Left rotation of a 32-bit word. -/
def rotl32 (x s : Nat) : Nat :=
  ((x % M32) * 2 ^ s + (x % M32) / 2 ^ (32 - s)) % M32

/-- The per-round nonlinear function of MD5. -/
def md5F (i b c d : Nat) : Nat :=
  if i < 16 then (b &&& c) ||| (not32 b &&& d)
  else if i < 32 then (d &&& b) ||| (not32 d &&& c)
  else if i < 48 then (b ^^^ c) ^^^ d
  else c ^^^ (b ||| not32 d)

/-- The message-word index used in round `i` of MD5. -/
def md5G (i : Nat) : Nat :=
  if i < 16 then i
  else if i < 32 then (5 * i + 1) % 16
  else if i < 48 then (3 * i + 5) % 16
  else (7 * i) % 16

/-- The 64 sine-derived round constants of MD5. -/
def md5K : List Nat :=
  [0xd76aa478, 0xe8c7b756, 0x242070db, 0xc1bdceee,
   0xf57c0faf, 0x4787c62a, 0xa8304613, 0xfd469501,
   0x698098d8, 0x8b44f7af, 0xffff5bb1, 0x895cd7be,
   0x6b901122, 0xfd987193, 0xa679438e, 0x49b40821,
   0xf61e2562, 0xc040b340, 0x265e5a51, 0xe9b6c7aa,
   0xd62f105d, 0x02441453, 0xd8a1e681, 0xe7d3fbc8,
   0x21e1cde6, 0xc33707d6, 0xf4d50d87, 0x455a14ed,
   0xa9e3e905, 0xfcefa3f8, 0x676f02d9, 0x8d2a4c8a,
   0xfffa3942, 0x8771f681, 0x6d9d6122, 0xfde5380c,
   0xa4beea44, 0x4bdecfa9, 0xf6bb4b60, 0xbebfbc70,
   0x289b7ec6, 0xeaa127fa, 0xd4ef3085, 0x04881d05,
   0xd9d4d039, 0xe6db99e5, 0x1fa27cf8, 0xc4ac5665,
   0xf4292244, 0x432aff97, 0xab9423a7, 0xfc93a039,
   0x655b59c3, 0x8f0ccc92, 0xffeff47d, 0x85845dd1,
   0x6fa87e4f, 0xfe2ce6e0, 0xa3014314, 0x4e0811a1,
   0xf7537e82, 0xbd3af235, 0x2ad7d2bb, 0xeb86d391]

/-- The 64 per-round left-rotation amounts of MD5. -/
def md5S : List Nat :=
  [7, 12, 17, 22, 7, 12, 17, 22, 7, 12, 17, 22, 7, 12, 17, 22,
   5, 9, 14, 20, 5, 9, 14, 20, 5, 9, 14, 20, 5, 9, 14, 20,
   4, 11, 16, 23, 4, 11, 16, 23, 4, 11, 16, 23, 4, 11, 16, 23,
   6, 10, 15, 21, 6, 10, 15, 21, 6, 10, 15, 21, 6, 10, 15, 21]

/-- The 32-bit word formed from four consecutive bytes of a block,
little-endian. -/
def wordAt (block : List Nat) (j : Nat) : Nat :=
  block.getD (4 * j) 0 + block.getD (4 * j + 1) 0 * 256 +
    block.getD (4 * j + 2) 0 * 65536 + block.getD (4 * j + 3) 0 * 16777216

/-- One of the 64 MD5 rounds applied to the running state `(a, b, c, d)`. -/
def md5Step (mwords : List Nat) (st : Nat × Nat × Nat × Nat) (i : Nat) :
    Nat × Nat × Nat × Nat :=
  let a := st.1
  let b := st.2.1
  let c := st.2.2.1
  let d := st.2.2.2
  let f := add32 (add32 (add32 (md5F i b c d) a) (md5K.getD i 0)) (mwords.getD (md5G i) 0)
  (d, add32 b (rotl32 f (md5S.getD i 0)), b, c)

/-- Process one 64-byte block. -/
def md5Block (st : Nat × Nat × Nat × Nat) (block : List Nat) :
    Nat × Nat × Nat × Nat :=
  let mwords := (List.range 16).map (wordAt block)
  let r := (List.range 64).foldl (fun s i => md5Step mwords s i) st
  (add32 st.1 r.1, add32 st.2.1 r.2.1, add32 st.2.2.1 r.2.2.1, add32 st.2.2.2 r.2.2.2)

/-- Split a byte list into 64-byte chunks (the last one possibly shorter);
on padded input every chunk has exactly 64 bytes. -/
def chunk64 (l : List Nat) : List (List Nat) :=
  if h : l = [] then []
  else
    l.take 64 :: chunk64 (l.drop 64)
termination_by l.length
decreasing_by
  simp only [List.length_drop]
  have hl : 0 < l.length := List.length_pos.mpr h
  omega

/-- MD5 padding: a 0x80 byte, zeros to 56 mod 64, then the bit length as
eight little-endian bytes. -/
def md5Pad (msg : List Nat) : List Nat :=
  let bitLen := msg.length * 8
  let zeros := (120 - (msg.length + 1) % 64) % 64
  msg ++ [128] ++ List.replicate zeros 0 ++
    [bitLen % 256, bitLen / 256 % 256, bitLen / 65536 % 256,
     bitLen / 16777216 % 256, bitLen / 4294967296 % 256,
     bitLen / 1099511627776 % 256, bitLen / 281474976710656 % 256,
     bitLen / 72057594037927936 % 256]

/-- The four final state words of MD5 over a byte message. -/
def md5Words (msg : List Nat) : Nat × Nat × Nat × Nat :=
  (chunk64 (md5Pad msg)).foldl md5Block (1732584193, 4023233417, 2562383102, 271733878)

/-- The four little-endian bytes of a 32-bit word. -/
def wordBytesLE (w : Nat) : List Nat :=
  [w % 256, w / 256 % 256, w / 65536 % 256, w / 16777216 % 256]

/-- The lowercase hexadecimal alphabet. -/
def hexDigitChars : List Char := strL "0123456789abcdef"

/-- The lowercase hex character of a nibble. -/
def hexDigit (n : Nat) : Char := hexDigitChars.getD n '0'

/-- The two lowercase hex characters of a byte. -/
def hexByte (b : Nat) : List Char := [hexDigit (b / 16), hexDigit (b % 16)]

/-- `hashlib.md5(bytes).hexdigest()`: the 16 digest bytes rendered as 32
lowercase hex characters. -/
def md5Hex (msg : List Nat) : List Char :=
  ((wordBytesLE (md5Words msg).1 ++ wordBytesLE (md5Words msg).2.1 ++
      wordBytesLE (md5Words msg).2.2.1 ++ wordBytesLE (md5Words msg).2.2.2).map hexByte).flatten

/-! ### MappingGenerator -/

/-- One input or output binding of the generated configuration. -/
structure MappingEntry where
  index : Nat
  name : List Char
  object_type : List Char
  property : List Char
deriving DecidableEq

/-- The builder's mutable accumulation: the two append-only lists held by a
`MappingGenerator` instance. -/
structure GenState where
  inputs : List MappingEntry
  outputs : List MappingEntry
deriving DecidableEq

/-- The object-type string "NODE". -/
def otNODE : List Char := strL "NODE"

/-- The object-type string "LINK". -/
def otLINK : List Char := strL "LINK"

/-- The object-type string "PATTERN". -/
def otPATTERN : List Char := strL "PATTERN"

/-- The object-type string "SYSTEM". -/
def otSYSTEM : List Char := strL "SYSTEM"

/-- `MappingGenerator._get_object_type`: membership test against the node
categories first, then the link categories, then the pattern list. -/
def get_object_type (p : ParsedModel) (element_id : List Char) : Option (List Char) :=
  if element_id ∈ p.junctions ∨ element_id ∈ p.reservoirs ∨ element_id ∈ p.tanks then
    some otNODE
  else if element_id ∈ p.pipes ∨ element_id ∈ p.pumps ∨ element_id ∈ p.valves then
    some otLINK
  else if element_id ∈ p.patterns then some otPATTERN
  else none

/-- The fixed input compatibility table of
`MappingGenerator._is_valid_input_property`. -/
def valid_input_properties (object_type : List Char) : List (List Char) :=
  if object_type = otNODE then [strL "DEMAND"]
  else if object_type = otLINK then [strL "STATUS", strL "SETTING"]
  else if object_type = otPATTERN then [strL "MULTIPLIER"]
  else []

/-- `MappingGenerator._is_valid_input_property`. -/
def is_valid_input_property (object_type property : List Char) : Bool :=
  decide (property ∈ valid_input_properties object_type)

/-- The fixed output compatibility table of
`MappingGenerator._is_valid_output_property`. -/
def valid_output_properties (object_type : List Char) : List (List Char) :=
  if object_type = otNODE then
    [strL "PRESSURE", strL "HEAD", strL "DEMAND", strL "TANKLEVEL", strL "QUALITY"]
  else if object_type = otLINK then
    [strL "FLOW", strL "VELOCITY", strL "HEADLOSS", strL "STATUS", strL "SETTING",
     strL "QUALITY"]
  else []

/-- `MappingGenerator._is_valid_output_property`. -/
def is_valid_output_property (object_type property : List Char) : Bool :=
  decide (property ∈ valid_output_properties object_type)

/-- `MappingGenerator.add_input`: split the spec on `:` (exactly two parts
required), resolve the element, validate the property against the input
table, and append an entry with index = current input count + 1 (index 0 is
reserved for ElapsedTime).  The Bool is the Python return value. -/
def add_input (p : ParsedModel) (st : GenState) (element_spec : List Char) :
    Bool × GenState :=
  match splitOnChar ':' element_spec with
  | [element_id, property_name] =>
    match get_object_type p element_id with
    | none => (false, st)
    | some object_type =>
      if is_valid_input_property object_type property_name then
        (true,
          { st with
            inputs := st.inputs ++
              [{ index := st.inputs.length + 1, name := element_id,
                 object_type := object_type, property := property_name }] })
      else (false, st)
  | _ => (false, st)

/-- `MappingGenerator.add_output`: same shape as `add_input` with the output
table and index = current output count (0-based, no reservation). -/
def add_output (p : ParsedModel) (st : GenState) (element_spec : List Char) :
    Bool × GenState :=
  match splitOnChar ':' element_spec with
  | [element_id, property_name] =>
    match get_object_type p element_id with
    | none => (false, st)
    | some object_type =>
      if is_valid_output_property object_type property_name then
        (true,
          { st with
            outputs := st.outputs ++
              [{ index := st.outputs.length, name := element_id,
                 object_type := object_type, property := property_name }] })
      else (false, st)
  | _ => (false, st)

/-- One of the append loops in `generate_default_outputs`: append an output
entry for every name, each with index = output count at its append. -/
def appendOutList (st : GenState) (names : List (List Char)) (ot prop : List Char) :
    GenState :=
  names.foldl
    (fun s n =>
      { s with
        outputs := s.outputs ++
          [{ index := s.outputs.length, name := n, object_type := ot, property := prop }] })
    st

/-- `MappingGenerator.generate_default_outputs`: tanks (TANKLEVEL), then
junctions (PRESSURE), then all links (FLOW); with quality also all nodes and
then all links (QUALITY). -/
def generate_default_outputs (p : ParsedModel) (st : GenState) (include_quality : Bool) :
    GenState :=
  let s1 := appendOutList st p.tanks otNODE (strL "TANKLEVEL")
  let s2 := appendOutList s1 p.junctions otNODE (strL "PRESSURE")
  let s3 := appendOutList s2 (get_all_links p) otLINK (strL "FLOW")
  if include_quality then
    let s4 := appendOutList s3 (get_all_nodes p) otNODE (strL "QUALITY")
    appendOutList s4 (get_all_links p) otLINK (strL "QUALITY")
  else s3

/-- `MappingGenerator._calculate_file_hash`: MD5 hex digest of the file's
bytes, or the literal "unknown" when the file cannot be read (`none`). -/
def calculate_file_hash : Option (List Nat) → List Char
  | none => strL "unknown"
  | some bytes => md5Hex bytes

/-- The fixed first input entry prepended by `generate_json`. -/
def elapsedTimeEntry : MappingEntry :=
  { index := 0, name := strL "ElapsedTime", object_type := otSYSTEM,
    property := strL "ELAPSEDTIME" }

/-- The configuration record assembled by `generate_json`.  The two fields
that are pure string formatting of other data (`inp_file` basename and the
`_comment` note repeating the timestep) are not modelled. -/
structure Configuration where
  version : List Char
  logging_level : List Char
  inp_file_hash : List Char
  hydraulic_timestep : Int
  input_count : Nat
  output_count : Nat
  inputs : List MappingEntry
  outputs : List MappingEntry
deriving DecidableEq

/-- `MappingGenerator.generate_json` up to serialization: prepend the
ElapsedTime entry, hash the source file (whose readable contents, if any,
are `inpBytes`), and assemble the configuration record. -/
def generate_json (p : ParsedModel) (st : GenState) (inpBytes : Option (List Nat))
    (logging_level : List Char) : Configuration :=
  let all_inputs := elapsedTimeEntry :: st.inputs
  { version := strL "1.0"
    logging_level := logging_level
    inp_file_hash := calculate_file_hash inpBytes
    hydraulic_timestep := p.hydraulic_timestep
    input_count := all_inputs.length
    output_count := st.outputs.length
    inputs := all_inputs
    outputs := st.outputs }

/-- States a `MappingGenerator` can reach: the freshly constructed builder,
plus anything obtained by the three mutating operations the script ever
performs on it. -/
inductive Reached (p : ParsedModel) : GenState → Prop
  | init : Reached p { inputs := [], outputs := [] }
  | addIn (st : GenState) (s : List Char) :
      Reached p st → Reached p (add_input p st s).2
  | addOut (st : GenState) (s : List Char) :
      Reached p st → Reached p (add_output p st s).2
  | defaults (st : GenState) (q : Bool) :
      Reached p st → Reached p (generate_default_outputs p st q)

/-! ### Basic lemmas about the text primitives -/

lemma splitOnChar_ne_nil (sep : Char) (s : List Char) : splitOnChar sep s ≠ [] := by
  cases s with
  | nil => simp [splitOnChar]
  | cons c cs =>
    simp only [splitOnChar]
    split <;> simp

lemma splitOnChar_length (sep : Char) (s : List Char) :
    (splitOnChar sep s).length = countChar sep s + 1 := by
  induction s with
  | nil => rfl
  | cons c cs ih =>
    by_cases h : c = sep
    · simp only [splitOnChar, countChar, if_pos h, List.length_cons, ih]
      omega
    · have hne := splitOnChar_ne_nil sep cs
      simp only [splitOnChar, countChar, if_neg h]
      simp only [List.length_cons, List.length_tail, ih]
      omega

/-! ### Shape lemmas for the builder operations -/

lemma add_input_shape (p : ParsedModel) (st : GenState) (s : List Char) :
    add_input p st s = (false, st) ∨
      ∃ e : MappingEntry, e.index = st.inputs.length + 1 ∧
        add_input p st s = (true, { st with inputs := st.inputs ++ [e] }) := by
  cases hsp : splitOnChar ':' s with
  | nil => exact Or.inl (by simp [add_input, hsp])
  | cons a r =>
    cases r with
    | nil => exact Or.inl (by simp [add_input, hsp])
    | cons b r2 =>
      cases r2 with
      | nil =>
        cases hot : get_object_type p a with
        | none => exact Or.inl (by simp [add_input, hsp, hot])
        | some ot =>
          by_cases hv : is_valid_input_property ot b = true
          · refine Or.inr ⟨MappingEntry.mk (st.inputs.length + 1) a ot b, rfl, ?_⟩
            simp [add_input, hsp, hot, hv]
          · exact Or.inl (by simp [add_input, hsp, hot, hv])
      | cons c r3 => exact Or.inl (by simp [add_input, hsp])

lemma add_output_shape (p : ParsedModel) (st : GenState) (s : List Char) :
    add_output p st s = (false, st) ∨
      ∃ e : MappingEntry, e.index = st.outputs.length ∧
        add_output p st s = (true, { st with outputs := st.outputs ++ [e] }) := by
  cases hsp : splitOnChar ':' s with
  | nil => exact Or.inl (by simp [add_output, hsp])
  | cons a r =>
    cases r with
    | nil => exact Or.inl (by simp [add_output, hsp])
    | cons b r2 =>
      cases r2 with
      | nil =>
        cases hot : get_object_type p a with
        | none => exact Or.inl (by simp [add_output, hsp, hot])
        | some ot =>
          by_cases hv : is_valid_output_property ot b = true
          · refine Or.inr ⟨MappingEntry.mk st.outputs.length a ot b, rfl, ?_⟩
            simp [add_output, hsp, hot, hv]
          · exact Or.inl (by simp [add_output, hsp, hot, hv])
      | cons c r3 => exact Or.inl (by simp [add_output, hsp])

/-- A model with one element in every category, used to instantiate theorems
with hypotheses on a concrete input. -/
def testModel : ParsedModel :=
  { junctions := [strL "J1"], reservoirs := [strL "R1"], tanks := [strL "TANK_1"],
    pipes := [strL "P1"], pumps := [strL "PU1"], valves := [strL "V1"],
    patterns := [strL "PAT1"], hydraulic_timestep := 3600, quality_enabled := false }

/-! ### C8 -/

/-- C8: when the same element ID appears in more than one category,
`_get_object_type` resolves deterministically by table order: any node
category wins over link and pattern membership, any link category (absent
node membership) wins over pattern membership, and PATTERN is returned only
when the ID is exclusively a pattern. -/
theorem c8_object_type_tiebreak (p : ParsedModel) (id : List Char) :
    ((id ∈ p.junctions ∨ id ∈ p.reservoirs ∨ id ∈ p.tanks) →
      get_object_type p id = some otNODE) ∧
    (¬(id ∈ p.junctions ∨ id ∈ p.reservoirs ∨ id ∈ p.tanks) →
      (id ∈ p.pipes ∨ id ∈ p.pumps ∨ id ∈ p.valves) →
      get_object_type p id = some otLINK) ∧
    (get_object_type p id = some otPATTERN ↔
      ¬(id ∈ p.junctions ∨ id ∈ p.reservoirs ∨ id ∈ p.tanks) ∧
        ¬(id ∈ p.pipes ∨ id ∈ p.pumps ∨ id ∈ p.valves) ∧ id ∈ p.patterns) := by
  unfold get_object_type
  refine ⟨fun h => by rw [if_pos h], fun hn hl => by rw [if_neg hn, if_pos hl], ?_, ?_⟩
  · intro h
    by_cases h1 : id ∈ p.junctions ∨ id ∈ p.reservoirs ∨ id ∈ p.tanks
    · rw [if_pos h1] at h
      exact absurd (Option.some.inj h) (by decide)
    · rw [if_neg h1] at h
      by_cases h2 : id ∈ p.pipes ∨ id ∈ p.pumps ∨ id ∈ p.valves
      · rw [if_pos h2] at h
        exact absurd (Option.some.inj h) (by decide)
      · rw [if_neg h2] at h
        by_cases h3 : id ∈ p.patterns
        · exact ⟨h1, h2, h3⟩
        · rw [if_neg h3] at h
          cases h
  · rintro ⟨h1, h2, h3⟩
    rw [if_neg h1, if_neg h2, if_pos h3]

/-- A model in which the ID "X" is simultaneously a junction, a pipe and a
pattern. -/
def dupModel : ParsedModel :=
  { junctions := [strL "X"], reservoirs := [], tanks := [], pipes := [strL "X"],
    pumps := [], valves := [], patterns := [strL "X"], hydraulic_timestep := 3600,
    quality_enabled := false }

/-- Witness for C8: the duplicated ID "X" resolves to NODE, not LINK or
PATTERN. -/
theorem c8_witness : get_object_type dupModel (strL "X") = some otNODE :=
  (c8_object_type_tiebreak dupModel (strL "X")).1 (Or.inl (by decide))

/-! ### C9 -/

/-- C9: `add_input` and `add_output` are atomic on failure: whenever the call
returns failure the builder state is exactly what it was before, and an entry
is appended (to the corresponding list only) exactly when the call returns
success. -/
theorem c9_atomic_on_failure (p : ParsedModel) (st : GenState) (s : List Char) :
    ((add_input p st s).1 = false → (add_input p st s).2 = st) ∧
    ((add_input p st s).1 = true →
      ∃ e : MappingEntry, (add_input p st s).2 = { st with inputs := st.inputs ++ [e] }) ∧
    ((add_output p st s).1 = false → (add_output p st s).2 = st) ∧
    ((add_output p st s).1 = true →
      ∃ e : MappingEntry, (add_output p st s).2 = { st with outputs := st.outputs ++ [e] }) := by
  refine ⟨?_, ?_, ?_, ?_⟩
  · intro hf
    rcases add_input_shape p st s with h | ⟨e, -, h⟩
    · rw [h]
    · rw [h] at hf
      simp at hf
  · intro ht
    rcases add_input_shape p st s with h | ⟨e, -, h⟩
    · rw [h] at ht
      simp at ht
    · exact ⟨e, by rw [h]⟩
  · intro hf
    rcases add_output_shape p st s with h | ⟨e, -, h⟩
    · rw [h]
    · rw [h] at hf
      simp at hf
  · intro ht
    rcases add_output_shape p st s with h | ⟨e, -, h⟩
    · rw [h] at ht
      simp at ht
    · exact ⟨e, by rw [h]⟩

/-- Witness for C9: an unknown-element failure leaves the fresh builder state
untouched. -/
theorem c9_witness :
    (add_input testModel { inputs := [], outputs := [] } (strL "GHOST:DEMAND")).2 =
      { inputs := [], outputs := [] } :=
  (c9_atomic_on_failure testModel { inputs := [], outputs := [] }
    (strL "GHOST:DEMAND")).1 (by decide)

/-! ### C4 -/

/-- C4: `add_input` fails unless the spec contains exactly one colon; with
exactly one colon it resolves the ID through `_get_object_type`, fails when
the ID is in no category, fails when the property is not in the input table
for the resolved type, and on success appends an entry whose index is the
current input count + 1 (so the first added input has index 1). -/
theorem c4_add_input_contract (p : ParsedModel) (st : GenState) (spec : List Char) :
    (countChar ':' spec ≠ 1 → add_input p st spec = (false, st)) ∧
    (∀ a b : List Char, splitOnChar ':' spec = [a, b] →
      countChar ':' spec = 1 ∧
      (get_object_type p a = none → add_input p st spec = (false, st)) ∧
      ((a ∉ p.junctions ∧ a ∉ p.reservoirs ∧ a ∉ p.tanks ∧ a ∉ p.pipes ∧
          a ∉ p.pumps ∧ a ∉ p.valves ∧ a ∉ p.patterns) →
        add_input p st spec = (false, st)) ∧
      (∀ ot : List Char, get_object_type p a = some ot →
        (is_valid_input_property ot b = false → add_input p st spec = (false, st)) ∧
        (is_valid_input_property ot b = true →
          add_input p st spec =
            (true, { st with inputs := st.inputs ++
              [MappingEntry.mk (st.inputs.length + 1) a ot b] })))) := by
  constructor
  · intro hc
    have hlen : (splitOnChar ':' spec).length ≠ 2 := by
      rw [splitOnChar_length]
      omega
    cases hsp : splitOnChar ':' spec with
    | nil => simp [add_input, hsp]
    | cons a r =>
      cases r with
      | nil => simp [add_input, hsp]
      | cons b r2 =>
        cases r2 with
        | nil =>
          rw [hsp] at hlen
          simp at hlen
        | cons c r3 => simp [add_input, hsp]
  · intro a b hab
    have hcount : countChar ':' spec = 1 := by
      have hl := splitOnChar_length ':' spec
      rw [hab] at hl
      simp at hl
      omega
    refine ⟨hcount, ?_, ?_, ?_⟩
    · intro hnone
      simp [add_input, hab, hnone]
    · intro hmem
      have h1 : ¬(a ∈ p.junctions ∨ a ∈ p.reservoirs ∨ a ∈ p.tanks) := by tauto
      have h2 : ¬(a ∈ p.pipes ∨ a ∈ p.pumps ∨ a ∈ p.valves) := by tauto
      have h3 : a ∉ p.patterns := by tauto
      have hnone : get_object_type p a = none := by
        unfold get_object_type
        rw [if_neg h1, if_neg h2, if_neg h3]
      simp [add_input, hab, hnone]
    · intro ot hot
      constructor
      · intro hv
        simp [add_input, hab, hot, hv]
      · intro hv
        simp [add_input, hab, hot, hv]

/-- Witness for C4: adding "TANK_1:DEMAND" on a model containing tank
"TANK_1" succeeds with object type NODE, property DEMAND and index 1. -/
theorem c4_witness :
    add_input testModel { inputs := [], outputs := [] } (strL "TANK_1:DEMAND") =
      (true, { inputs := [MappingEntry.mk 1 (strL "TANK_1") otNODE (strL "DEMAND")],
               outputs := [] }) := by
  have h := ((c4_add_input_contract testModel { inputs := [], outputs := [] }
      (strL "TANK_1:DEMAND")).2 (strL "TANK_1") (strL "DEMAND")
      (by decide)).2.2.2 otNODE (by decide)
  simpa using h.2 (by decide)

/-! ### C10 -/

/-- The model parsed from a TIMES section whose Hydraulic Timestep value is
"-1:00": every category is empty and the timestep is the negative value
-3600, propagated without any range check. -/
def negTimesModel : ParsedModel :=
  { junctions := [], reservoirs := [], tanks := [], pipes := [], pumps := [],
    valves := [], patterns := [], hydraulic_timestep := -3600,
    quality_enabled := false }

/-- C10: duration parsing applies no range check: whenever the colon-split
parts parse as integers the result is h*3600 + m*60 (+ s), so "-1:00"
yields -3600 and "0:00" yields 0, and the model's timestep reaches the
emitted configuration unchanged. -/
theorem c10_duration_no_range_check (x y z ts : List Char) (h m s : Int) :
    (splitOnChar ':' ts = [x, y] → pyInt x = some h → pyInt y = some m →
      parse_time_string ts = some (h * 3600 + m * 60)) ∧
    (splitOnChar ':' ts = [x, y, z] → pyInt x = some h → pyInt y = some m →
      pyInt z = some s → parse_time_string ts = some (h * 3600 + m * 60 + s)) ∧
    parse_time_string (strL "-1:00") = some (-3600) ∧
    parse_time_string (strL "0:00") = some 0 ∧
    (∀ (p : ParsedModel) (st : GenState) (fb : Option (List Nat)) (lvl : List Char),
      (generate_json p st fb lvl).hydraulic_timestep = p.hydraulic_timestep) ∧
    parseContent (strL "[TIMES]\nHydraulic Timestep -1:00") = some negTimesModel := by
  refine ⟨?_, ?_, by decide, by decide, fun p st fb lvl => rfl, by decide⟩
  · intro hsp hx hy
    simp [parse_time_string, hsp, hx, hy]
  · intro hsp hx hy hz
    simp [parse_time_string, hsp, hx, hy, hz]

/-- Witness for C10: "1:30" parses to 5400 seconds via the general
two-part clause. -/
theorem c10_witness : parse_time_string (strL "1:30") = some 5400 := by
  have h := (c10_duration_no_range_check (strL "1") (strL "30") [] (strL "1:30")
      1 30 0).1 (by decide) (by decide) (by decide)
  simpa using h

/-! ### C1 -/

/-- C1 (refuting evaluation): on a TIMES section whose Hydraulic Timestep
line carries the malformed duration "1:xx" — two colon-separated parts, the
second not an integer — the parse does not return a model with the default
3600 timestep: the `int()` call raises an uncaught `ValueError` and the run
aborts (`none`). -/
theorem c1_bad_duration_aborts_run :
    parseContent (strL "[TIMES]\nHydraulic Timestep 1:xx") = none := by decide

/-! ### C7 -/

lemma hexDigit_contains_of_lt (n : Nat) (h : n < 16) :
    hexDigitChars.contains (hexDigit n) = true := by
  have hall : ∀ m, m < 16 → hexDigitChars.contains (hexDigit m) = true := by decide
  exact hall n h

lemma hexByte_all_hex (b : Nat) (hb : b < 256) :
    (hexByte b).all (fun c => hexDigitChars.contains c) = true := by
  have h1 : b / 16 < 16 := by omega
  have h2 : b % 16 < 16 := Nat.mod_lt _ (by decide)
  simp only [hexByte, List.all_cons, List.all_nil, Bool.and_true]
  rw [hexDigit_contains_of_lt _ h1, hexDigit_contains_of_lt _ h2]
  rfl

lemma hexFlatten_form (bl : List Nat) (h : ∀ b ∈ bl, b < 256) :
    ((bl.map hexByte).flatten.length = 2 * bl.length) ∧
    ((bl.map hexByte).flatten.all (fun c => hexDigitChars.contains c) = true) := by
  induction bl with
  | nil => simp
  | cons b rest ih =>
    have hb : b < 256 := h b (by simp)
    have hr := ih (fun x hx => h x (by simp [hx]))
    constructor
    · simp only [List.map_cons, List.flatten_cons, List.length_append, hr.1, hexByte,
        List.length_cons, List.length_nil]
      omega
    · simp only [List.map_cons, List.flatten_cons, List.all_append, hr.2,
        hexByte_all_hex b hb, Bool.and_true]

lemma wordBytesLE_lt (w : Nat) : ∀ b ∈ wordBytesLE w, b < 256 := by
  simp only [wordBytesLE, List.mem_cons, List.not_mem_nil, or_false]
  rintro b (rfl | rfl | rfl | rfl) <;> omega

lemma md5Hex_form (msg : List Nat) :
    (md5Hex msg).length = 32 ∧
    (md5Hex msg).all (fun c => hexDigitChars.contains c) = true := by
  unfold md5Hex
  have hlt : ∀ b ∈ (wordBytesLE (md5Words msg).1 ++ wordBytesLE (md5Words msg).2.1 ++
      wordBytesLE (md5Words msg).2.2.1 ++ wordBytesLE (md5Words msg).2.2.2), b < 256 := by
    intro b hb
    simp only [List.mem_append] at hb
    rcases hb with ((h | h) | h) | h <;> exact wordBytesLE_lt _ b h
  have hf := hexFlatten_form _ hlt
  refine ⟨?_, hf.2⟩
  rw [hf.1]
  simp [wordBytesLE]

/-- C7: the file-hash helper is deterministic and total: hashing the same
contents yields the same digest, the digest is 32 characters long and drawn
from the lowercase hex alphabet, and an unreadable file yields the literal
"unknown" instead of raising. -/
theorem c7_file_hash_contract (bytes : List Nat) :
    calculate_file_hash (some bytes) = calculate_file_hash (some bytes) ∧
    (calculate_file_hash (some bytes)).length = 32 ∧
    (calculate_file_hash (some bytes)).all (fun c => hexDigitChars.contains c) = true ∧
    calculate_file_hash none = strL "unknown" :=
  ⟨rfl, (md5Hex_form bytes).1, (md5Hex_form bytes).2, rfl⟩

/-! ### Index bookkeeping for the builder lists -/

/-- Entries appended with consecutive indices starting at `k`: the list an
append loop of `generate_default_outputs` produces. -/
def numberFrom (k : Nat) (names : List (List Char)) (ot prop : List Char) :
    List MappingEntry :=
  match names with
  | [] => []
  | n :: rest => MappingEntry.mk k n ot prop :: numberFrom (k + 1) rest ot prop

/-- The (name, object type, property) content of an entry, forgetting the
index. -/
def entryProj (e : MappingEntry) : List Char × List Char × List Char :=
  (e.name, e.object_type, e.property)

lemma numberFrom_length (k : Nat) (names : List (List Char)) (ot prop : List Char) :
    (numberFrom k names ot prop).length = names.length := by
  induction names generalizing k with
  | nil => rfl
  | cons n rest ih => simp [numberFrom, ih]

lemma numberFrom_proj (k : Nat) (names : List (List Char)) (ot prop : List Char) :
    (numberFrom k names ot prop).map entryProj = names.map (fun n => (n, ot, prop)) := by
  induction names generalizing k with
  | nil => rfl
  | cons n rest ih => simp [numberFrom, entryProj, ih]

lemma numberFrom_index (k : Nat) (names : List (List Char)) (ot prop : List Char) :
    (numberFrom k names ot prop).map MappingEntry.index =
      (List.range names.length).map (· + k) := by
  induction names generalizing k with
  | nil => rfl
  | cons n rest ih =>
    simp only [numberFrom, List.map_cons, ih, List.length_cons,
      List.range_succ_eq_map, List.map_map]
    refine congrArg₂ List.cons (by omega) ?_
    exact List.map_congr_left (fun a _ => by simp [Function.comp]; omega)

lemma appendOutList_nil (st : GenState) (ot prop : List Char) :
    appendOutList st [] ot prop = st := rfl

lemma appendOutList_cons (st : GenState) (n : List Char) (rest : List (List Char))
    (ot prop : List Char) :
    appendOutList st (n :: rest) ot prop =
      appendOutList
        { st with outputs := st.outputs ++ [MappingEntry.mk st.outputs.length n ot prop] }
        rest ot prop := rfl

lemma appendOutList_inputs (names : List (List Char)) (ot prop : List Char) :
    ∀ st : GenState, (appendOutList st names ot prop).inputs = st.inputs := by
  induction names with
  | nil => intro st; rfl
  | cons n rest ih =>
    intro st
    rw [appendOutList_cons, ih]

lemma appendOutList_outputs (names : List (List Char)) (ot prop : List Char) :
    ∀ st : GenState,
      (appendOutList st names ot prop).outputs =
        st.outputs ++ numberFrom st.outputs.length names ot prop := by
  induction names with
  | nil => intro st; simp [appendOutList_nil, numberFrom]
  | cons n rest ih =>
    intro st
    rw [appendOutList_cons, ih]
    simp [numberFrom, List.length_append]

/-- Unfolding of `generate_default_outputs` without quality outputs. -/
lemma gdo_false_eq (p : ParsedModel) (st : GenState) :
    generate_default_outputs p st false =
      appendOutList
        (appendOutList (appendOutList st p.tanks otNODE (strL "TANKLEVEL"))
          p.junctions otNODE (strL "PRESSURE"))
        (get_all_links p) otLINK (strL "FLOW") := rfl

/-- Unfolding of `generate_default_outputs` with quality outputs. -/
lemma gdo_true_eq (p : ParsedModel) (st : GenState) :
    generate_default_outputs p st true =
      appendOutList
        (appendOutList
          (appendOutList
            (appendOutList (appendOutList st p.tanks otNODE (strL "TANKLEVEL"))
              p.junctions otNODE (strL "PRESSURE"))
            (get_all_links p) otLINK (strL "FLOW"))
          (get_all_nodes p) otNODE (strL "QUALITY"))
        (get_all_links p) otLINK (strL "QUALITY") := rfl

/-- The builder invariant on the input list: entry at position i carries
index i + 1. -/
def inputsIndexed (st : GenState) : Prop :=
  st.inputs.map MappingEntry.index = (List.range st.inputs.length).map (· + 1)

/-- The builder invariant on the output list: entry at position i carries
index i. -/
def outputsIndexed (st : GenState) : Prop :=
  st.outputs.map MappingEntry.index = List.range st.outputs.length

lemma appendOutList_indexed (names : List (List Char)) (ot prop : List Char)
    (st : GenState) (h : outputsIndexed st) :
    outputsIndexed (appendOutList st names ot prop) := by
  unfold outputsIndexed at h ⊢
  rw [appendOutList_outputs, List.map_append, h, numberFrom_index,
    List.length_append, numberFrom_length, List.range_add]
  refine congrArg₂ List.append rfl ?_
  exact List.map_congr_left (fun a _ => by omega)

lemma reached_indexed (p : ParsedModel) (st : GenState) (h : Reached p st) :
    inputsIndexed st ∧ outputsIndexed st := by
  induction h with
  | init => exact ⟨by simp [inputsIndexed], by simp [outputsIndexed]⟩
  | addIn st s hst ih =>
    rcases add_input_shape p st s with heq | ⟨e, hidx, heq⟩
    · rw [heq]
      exact ih
    · rw [heq]
      refine ⟨?_, ih.2⟩
      unfold inputsIndexed at ih ⊢
      simp only [List.map_append, List.length_append, ih.1, hidx, List.map_cons,
        List.map_nil, List.length_cons, List.length_nil]
      rw [List.range_succ]
      simp [ih.1, hidx]
  | addOut st s hst ih =>
    rcases add_output_shape p st s with heq | ⟨e, hidx, heq⟩
    · rw [heq]
      exact ih
    · rw [heq]
      refine ⟨ih.1, ?_⟩
      unfold outputsIndexed at ih ⊢
      simp only [List.map_append, List.length_append, ih.2, hidx, List.map_cons,
        List.map_nil, List.length_cons, List.length_nil]
      rw [List.range_succ]
  | defaults st q hst ih =>
    constructor
    · unfold inputsIndexed at ih ⊢
      have hi : (generate_default_outputs p st q).inputs = st.inputs := by
        cases q
        · rw [gdo_false_eq, appendOutList_inputs, appendOutList_inputs,
            appendOutList_inputs]
        · rw [gdo_true_eq, appendOutList_inputs, appendOutList_inputs,
            appendOutList_inputs, appendOutList_inputs, appendOutList_inputs]
      rw [hi]
      exact ih.1
    · cases q
      · rw [gdo_false_eq]
        exact appendOutList_indexed _ _ _ _
          (appendOutList_indexed _ _ _ _ (appendOutList_indexed _ _ _ _ ih.2))
      · rw [gdo_true_eq]
        exact appendOutList_indexed _ _ _ _ (appendOutList_indexed _ _ _ _
          (appendOutList_indexed _ _ _ _
            (appendOutList_indexed _ _ _ _ (appendOutList_indexed _ _ _ _ ih.2))))

/-! ### C2 -/

/-- C2: every configuration produced by `generate_json` from a reachable
builder state has the fixed ElapsedTime entry first, counts equal to list
lengths, and every entry's index equal to its position in its list (user
inputs thereby offset by +1 behind the reserved index 0). -/
theorem c2_configuration_invariants (p : ParsedModel) (st : GenState)
    (fb : Option (List Nat)) (lvl : List Char) (h : Reached p st) :
    (generate_json p st fb lvl).inputs.head? = some elapsedTimeEntry ∧
    (generate_json p st fb lvl).input_count = (generate_json p st fb lvl).inputs.length ∧
    (generate_json p st fb lvl).output_count = (generate_json p st fb lvl).outputs.length ∧
    (generate_json p st fb lvl).inputs.map MappingEntry.index =
      List.range (generate_json p st fb lvl).inputs.length ∧
    (generate_json p st fb lvl).outputs.map MappingEntry.index =
      List.range (generate_json p st fb lvl).outputs.length := by
  obtain ⟨hin, hout⟩ := reached_indexed p st h
  refine ⟨rfl, rfl, rfl, ?_, hout⟩
  show (elapsedTimeEntry :: st.inputs).map MappingEntry.index =
    List.range (elapsedTimeEntry :: st.inputs).length
  unfold inputsIndexed at hin
  simp only [List.map_cons, List.length_cons, List.range_succ_eq_map, hin]
  refine congrArg₂ List.cons rfl ?_
  exact List.map_congr_left (fun a _ => by omega)

/-- The builder state after one successful `add_input` on the test model. -/
def witState : GenState :=
  (add_input testModel { inputs := [], outputs := [] } (strL "TANK_1:DEMAND")).2

/-- Witness for C2: the configuration generated from a concrete reachable
state (one added input) satisfies all five invariants. -/
theorem c2_witness :
    (generate_json testModel witState none (strL "INFO")).inputs.head? =
        some elapsedTimeEntry ∧
    (generate_json testModel witState none (strL "INFO")).input_count =
        (generate_json testModel witState none (strL "INFO")).inputs.length ∧
    (generate_json testModel witState none (strL "INFO")).output_count =
        (generate_json testModel witState none (strL "INFO")).outputs.length ∧
    (generate_json testModel witState none (strL "INFO")).inputs.map MappingEntry.index =
        List.range (generate_json testModel witState none (strL "INFO")).inputs.length ∧
    (generate_json testModel witState none (strL "INFO")).outputs.map MappingEntry.index =
        List.range (generate_json testModel witState none (strL "INFO")).outputs.length :=
  c2_configuration_invariants testModel witState none (strL "INFO")
    (Reached.addIn { inputs := [], outputs := [] } (strL "TANK_1:DEMAND") Reached.init)

/-! ### C3 -/

/-- C3: starting from zero accumulated outputs, `generate_default_outputs`
appends exactly one TANKLEVEL entry per tank, then one PRESSURE entry per
junction, then one FLOW entry per link over pipes+pumps+valves, and with
quality also one QUALITY entry per node over junctions+reservoirs+tanks then
one QUALITY entry per link; without quality the total appended is
|tanks| + |junctions| + (|pipes|+|pumps|+|valves|). -/
theorem c3_default_outputs (p : ParsedModel) (ins : List MappingEntry) (q : Bool) :
    ((generate_default_outputs p { inputs := ins, outputs := [] } q).outputs.map entryProj =
      p.tanks.map (fun n => (n, otNODE, strL "TANKLEVEL")) ++
        p.junctions.map (fun n => (n, otNODE, strL "PRESSURE")) ++
        (p.pipes ++ p.pumps ++ p.valves).map (fun n => (n, otLINK, strL "FLOW")) ++
        (if q then
          (p.junctions ++ p.reservoirs ++ p.tanks).map
              (fun n => (n, otNODE, strL "QUALITY")) ++
            (p.pipes ++ p.pumps ++ p.valves).map (fun n => (n, otLINK, strL "QUALITY"))
        else [])) ∧
    (q = false →
      (generate_default_outputs p { inputs := ins, outputs := [] } q).outputs.length =
        p.tanks.length + p.junctions.length +
          (p.pipes.length + p.pumps.length + p.valves.length)) := by
  constructor
  · cases q
    · rw [gdo_false_eq]
      simp [appendOutList_outputs, numberFrom_proj, get_all_links, List.map_append]
    · rw [gdo_true_eq]
      simp [appendOutList_outputs, numberFrom_proj, get_all_links, get_all_nodes,
        List.map_append, List.append_assoc]
  · intro hq
    subst hq
    rw [gdo_false_eq]
    simp [appendOutList_outputs, numberFrom_length, get_all_links, List.length_append]
    omega

/-- Witness for C3: on the one-element-per-category test model without
quality, exactly 1 + 1 + 3 = 5 default outputs are appended. -/
theorem c3_witness :
    (generate_default_outputs testModel { inputs := [], outputs := [] } false).outputs.length =
      testModel.tanks.length + testModel.junctions.length +
        (testModel.pipes.length + testModel.pumps.length + testModel.valves.length) :=
  (c3_default_outputs testModel [] false).2 rfl

/-! ### C5 -/

/-- Modelled from the claim's words for refutation: a line whose FIRST TOKEN
case-insensitively equals "Quality" (the claim's reading, as opposed to the
prefix match the code performs). -/
def qualityFirstTokenLine (l : List Char) : Bool :=
  match pySplitWS (cleanLine l) with
  | t :: _ => decide (lowerL t = strL "quality")
  | [] => false

/-- Modelled from the claim's words for refutation: quality is enabled iff
the OPTIONS section contains a line whose first token case-insensitively
matches "Quality", honoring only the first such line, whose second token
uppercased must differ from "NONE". -/
def qualityOrigClaim (content : List Char) : Bool :=
  match sectionBody content (strL "[OPTIONS]") with
  | none => false
  | some body =>
    match (splitOnChar '\n' body).find? qualityFirstTokenLine with
    | none => false
    | some l => decide (pyUpper ((pySplitWS (cleanLine l)).getD 1 []) ≠ strL "NONE")

/-- C5 counterexample: on an OPTIONS section whose only line is
"QualityFoo CHEMICAL" the code enables quality (prefix match), while the
claim's first-token reading says it stays disabled — so the claimed "iff"
is false on this input. -/
theorem c5_counterexample :
    parse_quality_section (strL "[OPTIONS]\nQualityFoo CHEMICAL") = true ∧
    qualityOrigClaim (strL "[OPTIONS]\nQualityFoo CHEMICAL") = false := by
  constructor <;> decide

/-- The amended line test, following the code: the cleaned line starts with
"Quality" case-insensitively (prefix match) and has at least two
whitespace-delimited tokens. -/
def qualityLineAmended (l : List Char) : Bool :=
  isPrefixCI (strL "Quality") (cleanLine l) &&
    decide (2 ≤ (pySplitWS (cleanLine l)).length)

/-- The amended claim: quality is enabled iff the OPTIONS section contains a
line that (cleaned) case-insensitively STARTS WITH "Quality" and has at
least two tokens, and the first such line's second token, uppercased,
differs from "NONE"; absence of section or line leaves it disabled. -/
def qualityAmendedSpec (content : List Char) : Bool :=
  match sectionBody content (strL "[OPTIONS]") with
  | none => false
  | some body =>
    match (splitOnChar '\n' body).find? qualityLineAmended with
    | none => false
    | some l => decide (pyUpper ((pySplitWS (cleanLine l)).getD 1 []) ≠ strL "NONE")

lemma quality_lines_amended (lines : List (List Char)) :
    parseQualityLines lines =
      (match lines.find? qualityLineAmended with
       | none => false
       | some l => decide (pyUpper ((pySplitWS (cleanLine l)).getD 1 []) ≠ strL "NONE")) := by
  induction lines with
  | nil => rfl
  | cons l rest ih =>
    by_cases hc : cleanLine l = []
    · have hq : qualityLineAmended l = false := by
        unfold qualityLineAmended
        rw [hc]
        decide
      rw [List.find?_cons_of_neg _ (by simp [hq])]
      simp only [parseQualityLines, hc, if_pos]
      exact ih
    · by_cases hp : isPrefixCI (strL "Quality") (cleanLine l) = true
      · cases hs : pySplitWS (cleanLine l) with
        | nil =>
          have hq : qualityLineAmended l = false := by
            unfold qualityLineAmended
            rw [hs]
            simp
          rw [List.find?_cons_of_neg _ (by simp [hq])]
          simp only [parseQualityLines, hc, hp, hs, if_neg, if_pos]
          exact ih
        | cons t0 ts =>
          cases ts with
          | nil =>
            have hq : qualityLineAmended l = false := by
              unfold qualityLineAmended
              rw [hs]
              simp
            rw [List.find?_cons_of_neg _ (by simp [hq])]
            simp only [parseQualityLines, hc, hp, hs, if_neg, if_pos]
            exact ih
          | cons t1 ts2 =>
            have hq : qualityLineAmended l = true := by
              unfold qualityLineAmended
              rw [hs, hp]
              simp
            rw [List.find?_cons_of_pos _ (by simp [hq])]
            simp [parseQualityLines, hc, hp, hs]
      · have hpf : isPrefixCI (strL "Quality") (cleanLine l) = false := by
          revert hp
          cases isPrefixCI (strL "Quality") (cleanLine l) <;> simp
        have hq : qualityLineAmended l = false := by
          unfold qualityLineAmended
          rw [hpf]
          simp
        rw [List.find?_cons_of_neg _ (by simp [hq])]
        simp only [parseQualityLines, hc, hpf, if_neg, if_pos, Bool.false_eq_true]
        exact ih

/-- C5 (amended): `quality_enabled` is true iff the OPTIONS section contains
a line that case-insensitively starts with "Quality" (prefix match, not
first-token match) and has at least two tokens, with the first such line's
second token, uppercased, different from "NONE"; otherwise false. -/
theorem c5_quality_prefix_semantics (content : List Char) :
    parse_quality_section content = qualityAmendedSpec content := by
  cases h : sectionBody content (strL "[OPTIONS]") with
  | none => simp [parse_quality_section, qualityAmendedSpec, h]
  | some body =>
    simp only [parse_quality_section, qualityAmendedSpec, h]
    exact quality_lines_amended (splitOnChar '\n' body)

/-! ### C6 -/

/-- A line not opening a new section: its first character is not an opening
bracket. -/
def noBracket (l : List Char) : Bool :=
  decide (l.head? ≠ some '[')

/-- The spec's per-line contribution: clean the line; an empty result is
skipped, otherwise the first whitespace-delimited token is contributed. -/
def lineToken (line : List Char) : Option (List Char) :=
  if cleanLine line = [] then none else (pySplitWS (cleanLine line)).head?

/-- The spec's description of a section body, line-oriented: after the
case-insensitively matched header, the remainder of the header line followed
by the subsequent lines up to (excluding) the next line beginning with an
opening bracket; empty when the header is absent. -/
def sectionLinesSpec (content name : List Char) : List (List Char) :=
  match findCI name content with
  | none => []
  | some i =>
    ((splitOnChar '\n' (content.drop (i + name.length))).headD []) ::
      ((splitOnChar '\n' (content.drop (i + name.length))).tail.takeWhile noBracket)

/-- The spec's description of a section's element IDs: every non-empty
cleaned body line contributes exactly its first token, in file order. -/
def sectionIdsSpec (content name : List Char) : List (List Char) :=
  (sectionLinesSpec content name).filterMap lineToken

lemma bodySlice_cons (c : Char) (cs : List Char)
    (h : startsWithNlBr (c :: cs) = false) :
    bodySlice (c :: cs) = c :: bodySlice cs := by
  unfold bodySlice
  simp only [findNlBr, h, Bool.false_eq_true, if_false]
  cases hf : findNlBr cs with
  | none => simp
  | some j => simp [List.take_succ_cons]

lemma head_noBracket (cs : List Char) (h : cs.head? ≠ some '[') :
    noBracket ((splitOnChar '\n' cs).headD []) = true := by
  cases cs with
  | nil => decide
  | cons d ds =>
    by_cases hd : d = '\n'
    · subst hd
      simp [splitOnChar, noBracket]
    · have hdb : d ≠ '[' := fun he => h (by simp [he])
      simp [splitOnChar, hd, noBracket, hdb]

lemma takeWhile_headD_cons (p : List Char → Bool) (l : List (List Char))
    (hne : l ≠ []) (hp : p (l.headD []) = true) :
    l.takeWhile p = l.headD [] :: l.tail.takeWhile p := by
  cases l with
  | nil => exact absurd rfl hne
  | cons a t => simp [List.takeWhile_cons, List.headD_cons] at hp ⊢; simp [hp]

lemma slice_lines (s : List Char) :
    splitOnChar '\n' (bodySlice s) =
      ((splitOnChar '\n' s).headD []) ::
        ((splitOnChar '\n' s).tail.takeWhile noBracket) := by
  induction s with
  | nil => decide
  | cons c cs ih =>
    by_cases hc : c = '\n'
    · subst hc
      cases cs with
      | nil => decide
      | cons d ds =>
        by_cases hd : d = '['
        · subst hd
          have h1 : bodySlice ('\n' :: '[' :: ds) = [] := by
            simp [bodySlice, findNlBr, startsWithNlBr]
          rw [h1]
          have h2 : splitOnChar '\n' ('\n' :: '[' :: ds) =
              [] :: splitOnChar '\n' ('[' :: ds) := by
            simp [splitOnChar]
          rw [h2]
          have h3 : splitOnChar '\n' ('[' :: ds) =
              ('[' :: (splitOnChar '\n' ds).headD []) :: (splitOnChar '\n' ds).tail := by
            simp [splitOnChar]
          rw [h3]
          simp [splitOnChar, noBracket, List.takeWhile_cons]
        · have hsw : startsWithNlBr ('\n' :: d :: ds) = false := by
            simp [startsWithNlBr, hd]
          rw [bodySlice_cons '\n' (d :: ds) hsw]
          have h2 : splitOnChar '\n' ('\n' :: bodySlice (d :: ds)) =
              [] :: splitOnChar '\n' (bodySlice (d :: ds)) := by
            simp [splitOnChar]
          rw [h2, ih]
          have h3 : splitOnChar '\n' ('\n' :: d :: ds) =
              [] :: splitOnChar '\n' (d :: ds) := by
            simp [splitOnChar]
          rw [h3]
          simp only [List.headD_cons, List.tail_cons]
          refine congrArg₂ List.cons rfl ?_
          rw [takeWhile_headD_cons noBracket (splitOnChar '\n' (d :: ds))
            (splitOnChar_ne_nil _ _) (head_noBracket (d :: ds) (by simp [hd]))]
    · cases cs with
      | nil =>
        simp [bodySlice, findNlBr, startsWithNlBr, splitOnChar, hc]
      | cons d ds =>
        have hsw : startsWithNlBr (c :: d :: ds) = false := by
          simp [startsWithNlBr, hc]
        rw [bodySlice_cons c (d :: ds) hsw]
        have h2 : splitOnChar '\n' (c :: bodySlice (d :: ds)) =
            (c :: (splitOnChar '\n' (bodySlice (d :: ds))).headD []) ::
              (splitOnChar '\n' (bodySlice (d :: ds))).tail := by
          simp [splitOnChar, hc]
        rw [h2, ih]
        have h3 : splitOnChar '\n' (c :: d :: ds) =
            (c :: (splitOnChar '\n' (d :: ds)).headD []) ::
              (splitOnChar '\n' (d :: ds)).tail := by
          simp [splitOnChar, hc]
        rw [h3]
        simp only [List.headD_cons, List.tail_cons]

lemma fold_tokens (lines : List (List Char)) :
    ∀ acc : List (List Char),
      lines.foldl sectionStep acc = acc ++ lines.filterMap lineToken := by
  induction lines with
  | nil => intro acc; simp
  | cons l ls ih =>
    intro acc
    rw [List.foldl_cons, ih]
    by_cases hc : cleanLine l = []
    · simp [sectionStep, lineToken, hc]
    · cases hs : pySplitWS (cleanLine l) with
      | nil => simp [sectionStep, lineToken, hc, hs]
      | cons t ts => simp [sectionStep, lineToken, hc, hs]

/-- C6: the section extraction of `_parse_section` matches its line-oriented
description: the header is found case-insensitively, the body runs to the
next line beginning with an opening bracket (or end of text), every line is
comment-stripped and trimmed, empty lines are skipped, and each remaining
line contributes exactly its first token, in file order; an absent header
yields an empty list. -/
theorem c6_section_extraction (content name : List Char) :
    parse_section content name = sectionIdsSpec content name := by
  cases h : findCI name content with
  | none => simp [parse_section, sectionIdsSpec, sectionLinesSpec, sectionBody, h]
  | some i =>
    simp only [parse_section, sectionIdsSpec, sectionLinesSpec, sectionBody, h]
    rw [fold_tokens, slice_lines]
    simp
